import Mathlib

/-!
Verification development for the tflint ruleset rule
`rules/okta_group_naming_convention.go` (package `rules`).

The Go file defines one rule type, `OktaGroupNamePrefixRule`, with a
constructor `NewOktaGroupNamePrefixRule` and four methods: `Name`,
`Enabled`, `Severity` and `Check`.  `Check` calls into the tflint host
runner through three capabilities: `GetResourceContent` (the resource
query), `EvaluateExpr` (expression resolution, continuation style) and
`EmitIssue` (diagnostic emission).

The embedding below is a direct translation:

* host errors are modelled as strings (`GoError`);
* the runner is a record of the three host capabilities; the outcome of
  evaluating one expression is `EvalOutcome` (the host either resolves a
  string and invokes the callback, or skips the callback, or fails);
* `Check` is written in explicit state-passing style: the receiver
  (the rule value) is threaded through every step and handed back in the
  result, together with the list of issues that the host recorded and
  the error returned to the caller, so that frame properties about the
  receiver are provable rather than assumed;
* the `logger.Debug` call has no observable effect and is dropped.

The Go struct field `prefix` is a keyword in Lean; it is embedded under
the field name `pfx`.
-/

/-- Host-side error values (Go `error`). -/
abbrev GoError := String

/-- An opaque HCL expression handle; the host interprets it. -/
abbrev HclExpr := Nat

/-- A source range (`hcl.Range`): file name plus start and end positions. -/
structure SourceRange where
  Filename : String
  StartLine : Nat
  StartColumn : Nat
  EndLine : Nat
  EndColumn : Nat
deriving DecidableEq, Repr

/-- An authored attribute (`hclext.Attribute`): its expression and its range. -/
structure Attribute where
  Expr : HclExpr
  Range : SourceRange
deriving DecidableEq, Repr

/-- A block body (`hclext.Body`): the attribute mapping, keyed by name. -/
structure Body where
  Attributes : List (String × Attribute)
deriving DecidableEq, Repr

/-- One resource block (`hclext.Block`). -/
structure Block where
  Body : Body
deriving DecidableEq, Repr

/-- The result of the resource query (`hclext.BodyContent`). -/
structure BodyContent where
  Blocks : List Block
deriving DecidableEq, Repr

namespace tflint

/-- Issue severity (`tflint.Severity`). -/
inductive Severity where
  | ERROR
  | WARNING
  | NOTICE
deriving DecidableEq, Repr

end tflint

/-- A diagnostic recorded by the host on `EmitIssue(rule, message, range)`:
the emitting rule identity (name and severity) plus message and range. -/
structure Issue where
  ruleName : String
  severity : tflint.Severity
  message : String
  range : SourceRange
deriving DecidableEq, Repr

/-- What the host does with one `EvaluateExpr` request: resolve the
expression to a string and invoke the callback with it, skip the callback
(for example an unknown value the host chose to ignore), or fail. -/
inductive EvalOutcome where
  | value (s : String)
  | skipped
  | err (e : GoError)
deriving DecidableEq, Repr

/-- The host capabilities `Check` consumes (`tflint.Runner`):
the resource query (resource type and requested attribute names), the
per-expression evaluation behaviour, and issue emission, which records
the issue on success (`none`) or fails with an error (`some e`). -/
structure Runner where
  GetResourceContent : String → List String → Except GoError BodyContent
  EvaluateExpr : HclExpr → EvalOutcome
  EmitIssue : Issue → Option GoError

/-- Go `strings.HasPrefix s pre`: `pre` is a prefix of `s` (case-sensitive). -/
def hasPrefix (s pre : String) : Bool :=
  pre.data.isPrefixOf s.data

/-- The rule struct (`OktaGroupNamePrefixRule`): target resource type,
target attribute name, and the required name prefix (Go field `prefix`). -/
structure OktaGroupNamePrefixRule where
  resourceType : String
  attributeName : String
  pfx : String
deriving DecidableEq, Repr

/-- `NewOktaGroupNamePrefixRule` from the source: the configured rule. -/
def NewOktaGroupNamePrefixRule : OktaGroupNamePrefixRule :=
  { resourceType := "okta_group"
    attributeName := "name"
    pfx := "terraform-" }

namespace OktaGroupNamePrefixRule

/-- Method `Name`: the rule identifier. -/
def Name (_r : OktaGroupNamePrefixRule) : String :=
  "okta_group_name_prefix"

/-- Method `Enabled`: whether the rule is enabled by default. -/
def Enabled (_r : OktaGroupNamePrefixRule) : Bool :=
  true

/-- Method `Severity`: the severity of issues this rule emits. -/
def Severity (_r : OktaGroupNamePrefixRule) : tflint.Severity :=
  tflint.Severity.ERROR

end OktaGroupNamePrefixRule

/-- The outcome of a (partial or complete) check pass in state-passing
style: the rule value after the pass, the issues the host recorded so
far, and the error returned to the caller (`none` on success). -/
structure CheckResult where
  rule : OktaGroupNamePrefixRule
  issues : List Issue
  err : Option GoError
deriving DecidableEq, Repr

/-- The loop body of `Check` for one resource block: look the target
attribute up in the block body (skip the block when absent), have the
host evaluate its expression with the continuation from the source, and
inside the continuation test the prefix predicate and emit one issue on
violation.  Every return path hands the receiver back unchanged, exactly
as the Go method body does. -/
def processBlock (r : OktaGroupNamePrefixRule) (runner : Runner) (b : Block) :
    CheckResult :=
  match b.Body.Attributes.lookup r.attributeName with
  | none =>
    -- attribute not explicitly set: skip this block
    ⟨r, [], none⟩
  | some attr =>
    match runner.EvaluateExpr attr.Expr with
    | EvalOutcome.err e => ⟨r, [], some e⟩
    | EvalOutcome.skipped => ⟨r, [], none⟩
    | EvalOutcome.value groupName =>
      if !(hasPrefix groupName r.pfx) then
        let issueMsg := "Okta group name must start with \x27" ++ r.pfx ++ "\x27"
        let issue : Issue :=
          ⟨r.Name, r.Severity, issueMsg, attr.Range⟩
        match runner.EmitIssue issue with
        | some e => ⟨r, [], some e⟩
        | none => ⟨r, [issue], none⟩
      else
        ⟨r, [], none⟩

/-- The `for _, resource := range resources.Blocks` loop of `Check`:
process the blocks in host order, stopping at the first error; issues
recorded before the error are kept. -/
def checkBlocks (runner : Runner) :
    OktaGroupNamePrefixRule → List Block → CheckResult
  | r, [] => ⟨r, [], none⟩
  | r, b :: rest =>
    match processBlock r runner b with
    | ⟨r1, is, some e⟩ => ⟨r1, is, some e⟩
    | ⟨r1, is, none⟩ =>
      match checkBlocks runner r1 rest with
      | ⟨r2, is2, e2⟩ => ⟨r2, is ++ is2, e2⟩

/-- Method `Check`: query the host for all blocks of `resourceType`
restricted to `attributeName`; on query failure return that error at
once; otherwise run the block loop. -/
def OktaGroupNamePrefixRule.Check (r : OktaGroupNamePrefixRule)
    (runner : Runner) : CheckResult :=
  match runner.GetResourceContent r.resourceType [r.attributeName] with
  | Except.error e => ⟨r, [], some e⟩
  | Except.ok resources => checkBlocks runner r resources.Blocks

/-- Issue lists produced by `n` successive invocations of `Check` on the
same rule and host, most recent run first. -/
def checkRuns (r : OktaGroupNamePrefixRule) (runner : Runner) :
    Nat → List (List Issue)
  | 0 => []
  | n + 1 => (r.Check runner).issues :: checkRuns r runner n

/-! Concrete fixtures used by the witness theorems: a configuration file
with one `okta_group` resource whose `name` attribute sits at a known
range, and hosts exercising the violating, compliant, absent-attribute
and failing behaviours. -/

/-- Range of the sample `name` attribute inside the configuration file. -/
def sampleRange : SourceRange := ⟨"main.tf", 2, 3, 2, 18⟩

/-- The sample `name` attribute: expression handle 0 at `sampleRange`. -/
def sampleAttr : Attribute := ⟨0, sampleRange⟩

/-- A resource block that sets the `name` attribute. -/
def sampleBlock : Block := ⟨⟨[("name", sampleAttr)]⟩⟩

/-- A resource block that does not set the `name` attribute. -/
def blockWithoutName : Block := ⟨⟨[]⟩⟩

/-- A host returning one block whose name evaluates to `admins`
(violating); emission always succeeds. -/
def violRunner : Runner :=
  ⟨fun _ _ => Except.ok ⟨[sampleBlock]⟩,
   fun _ => EvalOutcome.value "admins",
   fun _ => none⟩

/-- A host returning one block whose name evaluates to
`terraform-admins` (compliant). -/
def compliantRunner : Runner :=
  ⟨fun _ _ => Except.ok ⟨[sampleBlock]⟩,
   fun _ => EvalOutcome.value "terraform-admins",
   fun _ => none⟩

/-- A host whose expression evaluation fails. -/
def evalErrRunner : Runner :=
  ⟨fun _ _ => Except.ok ⟨[sampleBlock]⟩,
   fun _ => EvalOutcome.err "eval failed",
   fun _ => none⟩

/-- A host whose resource query fails. -/
def queryErrRunner : Runner :=
  ⟨fun _ _ => Except.error "query failed",
   fun _ => EvalOutcome.value "admins",
   fun _ => none⟩

/-- The issue the rule emits for the sample violating block. -/
def sampleIssue : Issue :=
  ⟨"okta_group_name_prefix", tflint.Severity.ERROR,
   "Okta group name must start with \x27terraform-\x27", sampleRange⟩

/-- The configured rule with its required prefix replaced by the empty
string. -/
def emptyPrefixRule : OktaGroupNamePrefixRule :=
  { NewOktaGroupNamePrefixRule with pfx := "" }

/-! Helper lemmas shared by the claim theorems. -/

/-- Every return path of the loop body hands the receiver back unchanged. -/
theorem processBlock_rule_eq (r : OktaGroupNamePrefixRule) (runner : Runner)
    (b : Block) : (processBlock r runner b).rule = r := by
  unfold processBlock
  cases hl : b.Body.Attributes.lookup r.attributeName with
  | none => rfl
  | some attr =>
    dsimp only
    cases he : runner.EvaluateExpr attr.Expr with
    | err e => rfl
    | skipped => rfl
    | value s =>
      dsimp only
      cases hp : hasPrefix s r.pfx with
      | true => simp [hp]
      | false =>
        simp only [hp, Bool.not_false, if_true]
        split
        · rfl
        · rfl

/-- The block loop hands the receiver back unchanged. -/
theorem checkBlocks_rule_eq (runner : Runner) (r : OktaGroupNamePrefixRule)
    (bs : List Block) : (checkBlocks runner r bs).rule = r := by
  induction bs generalizing r with
  | nil => rfl
  | cons b rest ih =>
    unfold checkBlocks
    split
    · rename_i r1 is e heq
      have h1 : r1 = r := by
        have h0 := processBlock_rule_eq r runner b
        rw [heq] at h0
        exact h0
      exact h1
    · rename_i r1 is heq
      have h1 : r1 = r := by
        have h0 := processBlock_rule_eq r runner b
        rw [heq] at h0
        exact h0
      subst h1
      split
      rename_i r2 is2 e2 heq2
      have h2 := ih r1
      rw [heq2] at h2
      exact h2

/-- The whole check hands the receiver back unchanged. -/
theorem check_rule_eq (r : OktaGroupNamePrefixRule) (runner : Runner) :
    (r.Check runner).rule = r := by
  unfold OktaGroupNamePrefixRule.Check
  split
  · rfl
  · exact checkBlocks_rule_eq runner r _

/-- When a block contributes no issue and no error, the loop treats it as
if it were not there. -/
theorem checkBlocks_cons_skip (runner : Runner) (r : OktaGroupNamePrefixRule)
    (b : Block) (rest : List Block)
    (hskip : processBlock r runner b = ⟨r, [], none⟩) :
    checkBlocks runner r (b :: rest) = checkBlocks runner r rest := by
  simp only [checkBlocks, hskip, List.nil_append]

/-- When no block produces a host error, the loop succeeds and the
recorded issues are the concatenation of the per-block issue lists, in
host order. -/
theorem checkBlocks_eq_flatMap_of_no_err (runner : Runner)
    (r : OktaGroupNamePrefixRule) (bs : List Block)
    (h : ∀ b ∈ bs, (processBlock r runner b).err = none) :
    checkBlocks runner r bs =
      ⟨r, bs.flatMap (fun b => (processBlock r runner b).issues), none⟩ := by
  induction bs with
  | nil => rfl
  | cons b rest ih =>
    have hb : (processBlock r runner b).err = none :=
      h b (List.mem_cons_self b rest)
    have hrest : ∀ b' ∈ rest, (processBlock r runner b').err = none :=
      fun b' hb' => h b' (List.mem_cons_of_mem _ hb')
    unfold checkBlocks
    split
    · rename_i r1 is e heq
      rw [heq] at hb
      simp at hb
    · rename_i r1 is heq
      have h1 : r1 = r := by
        have h0 := processBlock_rule_eq r runner b
        rw [heq] at h0
        exact h0
      subst h1
      rw [ih hrest]
      have his : (processBlock r1 runner b).issues = is := by
        rw [heq]
      simp [List.flatMap_cons, his]

/-- When the blocks before `b` all succeed and `b` produces a host
error, the loop returns exactly that error, keeps the issues recorded up
to and including `b`, and never looks at the blocks after `b`. -/
theorem checkBlocks_err (runner : Runner) (r : OktaGroupNamePrefixRule)
    (pre : List Block) (b : Block) (rest : List Block) (e : GoError)
    (hpre : ∀ b' ∈ pre, (processBlock r runner b').err = none)
    (herr : (processBlock r runner b).err = some e) :
    checkBlocks runner r (pre ++ b :: rest) =
      ⟨r, pre.flatMap (fun b' => (processBlock r runner b').issues)
            ++ (processBlock r runner b).issues, some e⟩ := by
  induction pre with
  | nil =>
    simp only [List.nil_append, List.flatMap_nil]
    unfold checkBlocks
    split
    · rename_i r1 is e1 heq
      have h1 : r1 = r := by
        have h0 := processBlock_rule_eq r runner b
        rw [heq] at h0
        exact h0
      have he1 : some e1 = some e := by
        rw [heq] at herr
        exact herr
      rw [heq]
      simp [h1, he1.symm]
    · rename_i r1 is heq
      rw [heq] at herr
      simp at herr
  | cons p pre' ih =>
    have hp : (processBlock r runner p).err = none :=
      hpre p (List.mem_cons_self p pre')
    have hpre' : ∀ b' ∈ pre', (processBlock r runner b').err = none :=
      fun b' hb' => hpre b' (List.mem_cons_of_mem _ hb')
    have hcons : (p :: pre') ++ b :: rest = p :: (pre' ++ b :: rest) := rfl
    rw [hcons]
    unfold checkBlocks
    split
    · rename_i r1 is e1 heq
      rw [heq] at hp
      simp at hp
    · rename_i r1 is heq
      have h1 : r1 = r := by
        have h0 := processBlock_rule_eq r runner p
        rw [heq] at h0
        exact h0
      subst h1
      rw [ih hpre']
      have his : (processBlock r1 runner p).issues = is := by
        rw [heq]
      simp [List.flatMap_cons, his]

/-- Every issue the loop body records carries the rule identity the
source passes to `EmitIssue`: the rule name, the rule severity, the
message built from the configured prefix, and the range of the attribute
found in the block. -/
theorem processBlock_issue_shape (r : OktaGroupNamePrefixRule)
    (runner : Runner) (b : Block) :
    ∀ i ∈ (processBlock r runner b).issues,
      i.ruleName = r.Name ∧ i.severity = r.Severity
        ∧ i.message = "Okta group name must start with \x27" ++ r.pfx ++ "\x27" := by
  unfold processBlock
  cases hl : b.Body.Attributes.lookup r.attributeName with
  | none => simp
  | some attr =>
    dsimp only
    cases he : runner.EvaluateExpr attr.Expr with
    | err e => simp
    | skipped => simp
    | value s =>
      dsimp only
      cases hp : hasPrefix s r.pfx with
      | true => simp [hp]
      | false =>
        simp only [hp, Bool.not_false, if_true]
        split
        · simp
        · simp

/-- Every issue the block loop records has the shape of
`processBlock_issue_shape`. -/
theorem checkBlocks_issue_shape (runner : Runner)
    (r : OktaGroupNamePrefixRule) (bs : List Block) :
    ∀ i ∈ (checkBlocks runner r bs).issues,
      i.ruleName = r.Name ∧ i.severity = r.Severity
        ∧ i.message = "Okta group name must start with \x27" ++ r.pfx ++ "\x27" := by
  induction bs with
  | nil => simp [checkBlocks]
  | cons b rest ih =>
    unfold checkBlocks
    split
    · rename_i r1 is e heq
      intro i hi
      have his : (processBlock r runner b).issues = is := by
        rw [heq]
      exact processBlock_issue_shape r runner b i (his ▸ hi)
    · rename_i r1 is heq
      have h1 : r1 = r := by
        have h0 := processBlock_rule_eq r runner b
        rw [heq] at h0
        exact h0
      subst h1
      split
      rename_i r2 is2 e2 heq2
      intro i hi
      have hi2 : i ∈ is ++ is2 := hi
      rcases List.mem_append.mp hi2 with hmem | hmem
      · have his : (processBlock r1 runner b).issues = is := by
          rw [heq]
        exact processBlock_issue_shape r1 runner b i (his ▸ hmem)
      · have his2 : (checkBlocks runner r1 rest).issues = is2 := by
          rw [heq2]
        exact ih i (his2 ▸ hmem)

/-- Every issue `Check` records has the shape the source constructs. -/
theorem check_issue_shape (r : OktaGroupNamePrefixRule) (runner : Runner) :
    ∀ i ∈ (r.Check runner).issues,
      i.ruleName = r.Name ∧ i.severity = r.Severity
        ∧ i.message = "Okta group name must start with \x27" ++ r.pfx ++ "\x27" := by
  unfold OktaGroupNamePrefixRule.Check
  split
  · simp
  · exact checkBlocks_issue_shape runner r _

/-- Go `strings.HasPrefix` with the empty prefix holds for every string. -/
theorem hasPrefix_empty (s : String) : hasPrefix s "" = true := by
  show List.isPrefixOf [] s.data = true
  simp

/-- With an empty required prefix the loop body never records an issue. -/
theorem processBlock_issues_nil_of_pfx_empty (r : OktaGroupNamePrefixRule)
    (runner : Runner) (b : Block) (h : r.pfx = "") :
    (processBlock r runner b).issues = [] := by
  unfold processBlock
  cases hl : b.Body.Attributes.lookup r.attributeName with
  | none => rfl
  | some attr =>
    dsimp only
    cases he : runner.EvaluateExpr attr.Expr with
    | err e => rfl
    | skipped => rfl
    | value s =>
      dsimp only
      rw [h, hasPrefix_empty]
      simp

/-- With an empty required prefix the block loop records no issues. -/
theorem checkBlocks_issues_nil_of_pfx_empty (runner : Runner)
    (r : OktaGroupNamePrefixRule) (bs : List Block) (h : r.pfx = "") :
    (checkBlocks runner r bs).issues = [] := by
  induction bs with
  | nil => rfl
  | cons b rest ih =>
    unfold checkBlocks
    split
    · rename_i r1 is e heq
      have his : (processBlock r runner b).issues = is := by
        rw [heq]
      have hnil := processBlock_issues_nil_of_pfx_empty r runner b h
      rw [his] at hnil
      simp [hnil]
    · rename_i r1 is heq
      have h1 : r1 = r := by
        have h0 := processBlock_rule_eq r runner b
        rw [heq] at h0
        exact h0
      subst h1
      split
      rename_i r2 is2 e2 heq2
      have his : (processBlock r1 runner b).issues = is := by
        rw [heq]
      have hnil := processBlock_issues_nil_of_pfx_empty r1 runner b h
      rw [his] at hnil
      have his2 : (checkBlocks runner r1 rest).issues = is2 := by
        rw [heq2]
      rw [his2] at ih
      simp [hnil, ih]

/-! Claim theorems. -/

/-- Claim C5: if the resource query fails, `Check` returns that error
unchanged, evaluates no expressions and emits no issues. -/
theorem okta_check_query_error_propagated (r : OktaGroupNamePrefixRule)
    (runner : Runner) (e : GoError)
    (hget : runner.GetResourceContent r.resourceType [r.attributeName]
      = Except.error e) :
    r.Check runner = ⟨r, [], some e⟩ := by
  unfold OktaGroupNamePrefixRule.Check
  rw [hget]

/-- Witness for C5: a host whose query fails with `query failed`. -/
theorem okta_check_query_error_propagated_witness :
    NewOktaGroupNamePrefixRule.Check queryErrRunner
      = ⟨NewOktaGroupNamePrefixRule, [], some "query failed"⟩ :=
  okta_check_query_error_propagated NewOktaGroupNamePrefixRule
    queryErrRunner "query failed" rfl

/-- Claim C8: the constructor fixes the configuration to resource type
`okta_group`, attribute `name` and required prefix `terraform-`, all
three non-empty, and the accessors are pure: `Name` returns the rule
identifier, `Enabled` returns true. -/
theorem okta_new_rule_config :
    NewOktaGroupNamePrefixRule.resourceType = "okta_group"
    ∧ NewOktaGroupNamePrefixRule.attributeName = "name"
    ∧ NewOktaGroupNamePrefixRule.pfx = "terraform-"
    ∧ 0 < NewOktaGroupNamePrefixRule.resourceType.length
    ∧ 0 < NewOktaGroupNamePrefixRule.attributeName.length
    ∧ 0 < NewOktaGroupNamePrefixRule.pfx.length
    ∧ NewOktaGroupNamePrefixRule.Name = "okta_group_name_prefix"
    ∧ 0 < NewOktaGroupNamePrefixRule.Name.length
    ∧ NewOktaGroupNamePrefixRule.Enabled = true := by
  refine ⟨rfl, rfl, rfl, ?_, ?_, ?_, rfl, ?_, rfl⟩ <;> decide

/-- Claim C10: `Check` hands the receiver back unchanged for every host
behaviour, so the configuration fields and the accessor results are the
same after a check pass as before it. -/
theorem okta_check_preserves_rule_config (r : OktaGroupNamePrefixRule)
    (runner : Runner) :
    (r.Check runner).rule = r
    ∧ (r.Check runner).rule.resourceType = r.resourceType
    ∧ (r.Check runner).rule.attributeName = r.attributeName
    ∧ (r.Check runner).rule.pfx = r.pfx
    ∧ ((r.Check runner).rule).Name = r.Name
    ∧ ((r.Check runner).rule).Enabled = r.Enabled
    ∧ ((r.Check runner).rule).Severity = r.Severity := by
  have h := check_rule_eq r runner
  exact ⟨h, by rw [h], by rw [h], by rw [h], by rw [h], by rw [h], by rw [h]⟩

/-- Claim C2: a block whose attribute mapping does not contain the
target attribute is skipped: no issue, no error, and the loop continues
with the remaining blocks exactly as if the block were absent.  The
conclusion holds for every host evaluation behaviour, so no expression
of that block is ever evaluated. -/
theorem okta_check_absent_attribute_skipped (r : OktaGroupNamePrefixRule)
    (runner : Runner) (b : Block)
    (habs : b.Body.Attributes.lookup r.attributeName = none) :
    processBlock r runner b = ⟨r, [], none⟩
    ∧ ∀ rest, checkBlocks runner r (b :: rest) = checkBlocks runner r rest := by
  have hskip : processBlock r runner b = ⟨r, [], none⟩ := by
    unfold processBlock
    rw [habs]
  exact ⟨hskip, fun rest => checkBlocks_cons_skip runner r b rest hskip⟩

/-- Witness for C2: a block without the `name` attribute produces no
issue and no error, under a host that would report a violation were the
attribute present. -/
theorem okta_check_absent_attribute_skipped_witness :
    processBlock NewOktaGroupNamePrefixRule violRunner blockWithoutName
      = ⟨NewOktaGroupNamePrefixRule, [], none⟩
    ∧ checkBlocks violRunner NewOktaGroupNamePrefixRule
        (blockWithoutName :: [sampleBlock])
      = checkBlocks violRunner NewOktaGroupNamePrefixRule [sampleBlock] := by
  have h := okta_check_absent_attribute_skipped NewOktaGroupNamePrefixRule
    violRunner blockWithoutName rfl
  exact ⟨h.1, h.2 [sampleBlock]⟩

/-- Claim C3: a block whose attribute evaluates to a string carrying the
configured prefix produces no issue and no error, and the loop continues
with the next block. -/
theorem okta_check_compliant_attribute_no_issue (r : OktaGroupNamePrefixRule)
    (runner : Runner) (b : Block) (attr : Attribute) (s : String)
    (hlook : b.Body.Attributes.lookup r.attributeName = some attr)
    (heval : runner.EvaluateExpr attr.Expr = EvalOutcome.value s)
    (hcompl : hasPrefix s r.pfx = true) :
    processBlock r runner b = ⟨r, [], none⟩
    ∧ ∀ rest, checkBlocks runner r (b :: rest) = checkBlocks runner r rest := by
  have hskip : processBlock r runner b = ⟨r, [], none⟩ := by
    unfold processBlock
    rw [hlook]
    dsimp only
    rw [heval]
    dsimp only
    rw [hcompl]
    simp
  exact ⟨hskip, fun rest => checkBlocks_cons_skip runner r b rest hskip⟩

/-- Witness for C3: the sample block with name `terraform-admins`. -/
theorem okta_check_compliant_attribute_no_issue_witness :
    processBlock NewOktaGroupNamePrefixRule compliantRunner sampleBlock
      = ⟨NewOktaGroupNamePrefixRule, [], none⟩
    ∧ checkBlocks compliantRunner NewOktaGroupNamePrefixRule
        (sampleBlock :: [])
      = checkBlocks compliantRunner NewOktaGroupNamePrefixRule [] := by
  have h := okta_check_compliant_attribute_no_issue NewOktaGroupNamePrefixRule
    compliantRunner sampleBlock sampleAttr "terraform-admins"
    (by decide) (by decide) (by decide)
  exact ⟨h.1, h.2 []⟩

/-- Claim C1: for the configured rule, a block whose attribute resolves
to a string lacking the `terraform-` prefix makes the loop body record
exactly one issue, carrying the rule identity, the message built from
the configured prefix, and the range of that attribute; and on an
error-free pass the issues of the whole check are exactly the per-block
issue lists concatenated in host order, so the violating block
contributes exactly that one issue. -/
theorem okta_check_violating_attribute_emits_one_issue
    (runner : Runner) (b : Block) (attr : Attribute) (s : String)
    (hlook : b.Body.Attributes.lookup NewOktaGroupNamePrefixRule.attributeName
      = some attr)
    (heval : runner.EvaluateExpr attr.Expr = EvalOutcome.value s)
    (hviol : hasPrefix s NewOktaGroupNamePrefixRule.pfx = false)
    (hemit : runner.EmitIssue ⟨"okta_group_name_prefix", tflint.Severity.ERROR,
        "Okta group name must start with \x27terraform-\x27", attr.Range⟩
      = none) :
    processBlock NewOktaGroupNamePrefixRule runner b
      = ⟨NewOktaGroupNamePrefixRule,
          [⟨"okta_group_name_prefix", tflint.Severity.ERROR,
            "Okta group name must start with \x27terraform-\x27", attr.Range⟩],
          none⟩
    ∧ ∀ resources,
        runner.GetResourceContent "okta_group" ["name"] = Except.ok resources →
        (∀ b' ∈ resources.Blocks,
          (processBlock NewOktaGroupNamePrefixRule runner b').err = none) →
        (NewOktaGroupNamePrefixRule.Check runner).issues
          = resources.Blocks.flatMap
              (fun b' => (processBlock NewOktaGroupNamePrefixRule runner b').issues) := by
  have hmsg : "Okta group name must start with \x27"
      ++ NewOktaGroupNamePrefixRule.pfx ++ "\x27"
      = "Okta group name must start with \x27terraform-\x27" := by decide
  have hissue : (⟨NewOktaGroupNamePrefixRule.Name,
      NewOktaGroupNamePrefixRule.Severity,
      "Okta group name must start with \x27"
        ++ NewOktaGroupNamePrefixRule.pfx ++ "\x27",
      attr.Range⟩ : Issue)
      = ⟨"okta_group_name_prefix", tflint.Severity.ERROR,
          "Okta group name must start with \x27terraform-\x27", attr.Range⟩ := by
    rw [hmsg]
    rfl
  constructor
  · unfold processBlock
    rw [hlook]
    dsimp only
    rw [heval]
    dsimp only
    simp only [hviol, Bool.not_false, if_true]
    rw [hissue, hemit]
  · intro resources hok hnone
    have hok2 : runner.GetResourceContent NewOktaGroupNamePrefixRule.resourceType
        [NewOktaGroupNamePrefixRule.attributeName] = Except.ok resources := hok
    unfold OktaGroupNamePrefixRule.Check
    rw [hok2]
    dsimp only
    rw [checkBlocks_eq_flatMap_of_no_err runner NewOktaGroupNamePrefixRule
      resources.Blocks hnone]

/-- Witness for C1: the sample block with name `admins` yields exactly
the sample issue, and the whole check on that host records exactly that
issue once. -/
theorem okta_check_violating_attribute_emits_one_issue_witness :
    processBlock NewOktaGroupNamePrefixRule violRunner sampleBlock
      = ⟨NewOktaGroupNamePrefixRule, [sampleIssue], none⟩
    ∧ (NewOktaGroupNamePrefixRule.Check violRunner).issues = [sampleIssue] := by
  have h := okta_check_violating_attribute_emits_one_issue violRunner
    sampleBlock sampleAttr "admins" (by decide) (by decide) (by decide)
    (by decide)
  constructor
  · exact h.1
  · have h2 := h.2 ⟨[sampleBlock]⟩ rfl (by decide)
    rw [h2]
    decide

/-- Claim C4: when the blocks before `b` succeed and evaluation or
emission fails at `b`, `Check` returns exactly that error, keeps the
issues recorded for the earlier blocks (and whatever `b` recorded before
failing), and the blocks after `b` have no influence on the outcome. -/
theorem okta_check_stops_on_first_host_error (r : OktaGroupNamePrefixRule)
    (runner : Runner) (resources : BodyContent)
    (pre : List Block) (b : Block) (rest : List Block) (e : GoError)
    (hget : runner.GetResourceContent r.resourceType [r.attributeName]
      = Except.ok resources)
    (hblocks : resources.Blocks = pre ++ b :: rest)
    (hpre : ∀ b' ∈ pre, (processBlock r runner b').err = none)
    (herr : (processBlock r runner b).err = some e) :
    (r.Check runner).err = some e
    ∧ (r.Check runner).issues
        = pre.flatMap (fun b' => (processBlock r runner b').issues)
            ++ (processBlock r runner b).issues
    ∧ ∀ rest', checkBlocks runner r (pre ++ b :: rest')
        = checkBlocks runner r (pre ++ b :: rest) := by
  have hcb := checkBlocks_err runner r pre b rest e hpre herr
  have hch : r.Check runner = checkBlocks runner r resources.Blocks := by
    unfold OktaGroupNamePrefixRule.Check
    rw [hget]
  rw [hblocks] at hch
  rw [hch, hcb]
  refine ⟨rfl, rfl, ?_⟩
  intro rest'
  rw [checkBlocks_err runner r pre b rest' e hpre herr]

/-- Witness for C4: a host whose expression evaluation fails on the
sample block; the check returns that error and records no issue. -/
theorem okta_check_stops_on_first_host_error_witness :
    (NewOktaGroupNamePrefixRule.Check evalErrRunner).err = some "eval failed"
    ∧ (NewOktaGroupNamePrefixRule.Check evalErrRunner).issues = [] := by
  have h := okta_check_stops_on_first_host_error NewOktaGroupNamePrefixRule
    evalErrRunner ⟨[sampleBlock]⟩ [] sampleBlock [] "eval failed"
    rfl rfl (by simp) (by decide)
  refine ⟨h.1, ?_⟩
  rw [h.2.1]
  decide

/-- Claim C6: `Check` is stateless and idempotent: every one of `n`
successive runs over the same rule and the same host behaviour produces
the same issue list, with no accumulation and no suppression. -/
theorem okta_check_idempotent_stateless (r : OktaGroupNamePrefixRule)
    (runner : Runner) (n : Nat) :
    ∀ l ∈ checkRuns r runner n, l = (r.Check runner).issues := by
  induction n with
  | zero =>
    intro l hl
    simp [checkRuns] at hl
  | succ n ih =>
    intro l hl
    rw [checkRuns] at hl
    rcases List.mem_cons.mp hl with h | h
    · exact h
    · exact ih l h

/-- Witness for C6: two successive runs on the violating host both
produce exactly the sample issue. -/
theorem okta_check_idempotent_stateless_witness :
    [sampleIssue] ∈ checkRuns NewOktaGroupNamePrefixRule violRunner 2
    ∧ [sampleIssue] = (NewOktaGroupNamePrefixRule.Check violRunner).issues :=
  ⟨by decide, okta_check_idempotent_stateless NewOktaGroupNamePrefixRule
    violRunner 2 [sampleIssue] (by decide)⟩

/-- Claim C7: with an empty required prefix the prefix predicate holds
for every resolved string, and the check records zero issues whatever
the host returns. -/
theorem okta_check_empty_prefix_no_issues (r : OktaGroupNamePrefixRule)
    (runner : Runner) (s : String) (hpfx : r.pfx = "") :
    hasPrefix s r.pfx = true ∧ (r.Check runner).issues = [] := by
  constructor
  · rw [hpfx]
    exact hasPrefix_empty s
  · unfold OktaGroupNamePrefixRule.Check
    split
    · rfl
    · exact checkBlocks_issues_nil_of_pfx_empty runner r _ hpfx

/-- Witness for C7: the rule with empty prefix accepts `admins` and
records no issue on the otherwise violating host. -/
theorem okta_check_empty_prefix_no_issues_witness :
    hasPrefix "admins" emptyPrefixRule.pfx = true
    ∧ (emptyPrefixRule.Check violRunner).issues = [] :=
  okta_check_empty_prefix_no_issues emptyPrefixRule violRunner "admins" rfl

/-- Claim C9: `Severity` returns the Error level for every rule value,
and consequently every issue a check pass records carries the Error
severity. -/
theorem okta_severity_always_error :
    (∀ r : OktaGroupNamePrefixRule, r.Severity = tflint.Severity.ERROR)
    ∧ ∀ (r : OktaGroupNamePrefixRule) (runner : Runner),
        ∀ i ∈ (r.Check runner).issues, i.severity = tflint.Severity.ERROR := by
  constructor
  · intro r
    rfl
  · intro r runner i hi
    exact (check_issue_shape r runner i hi).2.1

/-- Witness for C9: the issue recorded for the sample violating block
carries the Error severity. -/
theorem okta_severity_always_error_witness :
    sampleIssue ∈ (NewOktaGroupNamePrefixRule.Check violRunner).issues
    ∧ sampleIssue.severity = tflint.Severity.ERROR :=
  ⟨by decide, okta_severity_always_error.2 NewOktaGroupNamePrefixRule
    violRunner sampleIssue (by decide)⟩
